import Mathlib

/-!
Verification development for the cosilico-engine rule evaluator
(`src/lib.rs`). The Rust core evaluates a small expression IR over two
scopes of named f64 values (population scalars and per-row values), with a
sequential scalar pass followed by a per-row map.

Modelling conventions:
* f64 is embedded as `F`: an exact rational together with the IEEE special
  values `+inf`, `-inf` and `nan`. Rounding error and signed zero are
  abstracted away (every claim under study is about structure, zero tests
  and special values, not about rounding of finite arithmetic).
* `HashMap<String, f64>` is embedded as a normalized association list
  (`AListM` below) whose `ainsert` replaces an existing key, matching
  `HashMap::insert`'s observable get/insert behaviour.
* Python values crossing the PyO3 boundary are embedded as `PyVal`, and
  fallible extraction/decoding as `Except PErr`. A Rust `panic!` reached
  via `unwrap()` is modelled as the error value `PErr.panic` (PyO3 converts
  the unwind into an exception surfaced to the Python caller).
-/

set_option autoImplicit false

namespace CosilicoEngine

/-- Embedded f64 value: an exact rational, or one of the IEEE special
values `+inf`, `-inf`, `nan`. -/
inductive F where
  | num (q : ℚ)
  | pinf
  | ninf
  | nan
deriving DecidableEq, Repr

namespace F

/-- IEEE negation. -/
def fneg : F → F
  | .num q => .num (-q)
  | .pinf => .ninf
  | .ninf => .pinf
  | .nan => .nan

/-- IEEE addition (`l + r` in `eval_expr`), exact on finite values. -/
def fadd : F → F → F
  | .nan, _ => .nan
  | _, .nan => .nan
  | .pinf, .ninf => .nan
  | .ninf, .pinf => .nan
  | .pinf, _ => .pinf
  | _, .pinf => .pinf
  | .ninf, _ => .ninf
  | _, .ninf => .ninf
  | .num a, .num b => .num (a + b)

/-- IEEE subtraction (`l - r` in `eval_expr`): `l + (-r)`. -/
def fsub (l r : F) : F := fadd l (fneg r)

/-- IEEE multiplication (`l * r` in `eval_expr`), exact on finite values. -/
def fmul : F → F → F
  | .nan, _ => .nan
  | _, .nan => .nan
  | .num a, .num b => .num (a * b)
  | .num a, .pinf => if 0 < a then .pinf else if a < 0 then .ninf else .nan
  | .num a, .ninf => if 0 < a then .ninf else if a < 0 then .pinf else .nan
  | .pinf, .num b => if 0 < b then .pinf else if b < 0 then .ninf else .nan
  | .ninf, .num b => if 0 < b then .ninf else if b < 0 then .pinf else .nan
  | .pinf, .pinf => .pinf
  | .pinf, .ninf => .ninf
  | .ninf, .pinf => .ninf
  | .ninf, .ninf => .pinf

/-- IEEE division for a divisor that is not (the unsigned model of) zero;
`eval_expr` only reaches this through the `r != 0.0` guard. -/
def fdivRaw : F → F → F
  | .nan, _ => .nan
  | _, .nan => .nan
  | .pinf, .pinf => .nan
  | .pinf, .ninf => .nan
  | .ninf, .pinf => .nan
  | .ninf, .ninf => .nan
  | .pinf, .num b => if b < 0 then .ninf else .pinf
  | .ninf, .num b => if b < 0 then .pinf else .ninf
  | .num _, .pinf => .num 0
  | .num _, .ninf => .num 0
  | .num a, .num b => .num (a / b)

/-- IEEE `<` (false whenever an operand is `nan`). -/
def flt : F → F → Bool
  | .nan, _ => false
  | _, .nan => false
  | .num a, .num b => decide (a < b)
  | .ninf, .ninf => false
  | .ninf, _ => true
  | _, .ninf => false
  | .pinf, _ => false
  | _, .pinf => true

/-- IEEE `<=` (false whenever an operand is `nan`). -/
def fle : F → F → Bool
  | .nan, _ => false
  | _, .nan => false
  | .num a, .num b => decide (a ≤ b)
  | .ninf, _ => true
  | _, .pinf => true
  | .pinf, _ => false
  | .num _, .ninf => false

/-- IEEE `>`: `l > r` iff `r < l`. -/
def fgt (l r : F) : Bool := flt r l

/-- IEEE `>=`: `l >= r` iff `r <= l`. -/
def fge (l r : F) : Bool := fle r l

/-- Embeds `f64::abs`. -/
def fabs : F → F
  | .num a => .num |a|
  | .pinf => .pinf
  | .ninf => .pinf
  | .nan => .nan

/-- Embeds `f64::min`: if one argument is `nan` the other is returned. -/
def fmin (x y : F) : F :=
  match x, y with
  | .nan, b => b
  | a, .nan => a
  | a, b => if fle a b then a else b

/-- Embeds `f64::max`: if one argument is `nan` the other is returned. -/
def fmax (x y : F) : F :=
  match x, y with
  | .nan, b => b
  | a, .nan => a
  | a, b => if fle a b then b else a

/-- Embeds `f64::round` on an exact rational: nearest integer, ties away
from zero. -/
def rustRound (q : ℚ) : ℚ :=
  if 0 ≤ q then (⌊q + 1/2⌋ : ℤ) else (⌈q - 1/2⌉ : ℤ)

/-- Embeds `f64::round`. -/
def fround : F → F
  | .num q => .num (rustRound q)
  | .pinf => .pinf
  | .ninf => .ninf
  | .nan => .nan

end F

/-- The absolute tolerance `1e-10` used by the `==` operator. -/
def tol : F := F.num (1 / 10000000000)

/-- Map from `String` to values, embedding `HashMap<String, _>`:
an association list normalized by key-replacing insertion. -/
abbrev AListM (α : Type) : Type := List (String × α)

/-- Embeds `HashMap::get`. -/
def aget {α : Type} (m : AListM α) (k : String) : Option α :=
  (m.find? (fun p => p.1 == k)).map (fun p => p.2)

/-- Embeds `HashMap::insert`: replaces any existing entry for the key. -/
def ainsert {α : Type} (m : AListM α) (k : String) (v : α) : AListM α :=
  (k, v) :: m.filter (fun p => p.1 != k)

/-- The empty map (`HashMap::new`). -/
def aempty {α : Type} : AListM α := []

mutual
/-- The expression IR (`enum Expr` in `src/lib.rs`). The `Vec<Expr>`
argument list of `Call` is represented by the mutually inductive
`ExprList` so that the evaluator is structurally recursive. -/
inductive Expr where
  | Literal (v : F)
  | Var (name : String)
  | BinOp (op : String) (left : Expr) (right : Expr)
  | Call (func : String) (args : ExprList)
  | Cond (cond : Expr) (then_expr : Expr) (else_expr : Expr)
inductive ExprList where
  | nil
  | cons (head : Expr) (tail : ExprList)
end

/-- View a plain list of expressions as an `ExprList`. -/
def ExprList.ofList : List Expr → ExprList
  | [] => .nil
  | e :: es => .cons e (ExprList.ofList es)

mutual
/-- The function `eval_expr` from `src/lib.rs`: evaluate an expression against scalar
bindings and row bindings. Total and non-failing, mirroring the Rust
function line by line. The `r != 0.0` division guard and the `c != 0.0`
conditional test become inequality with `F.num 0` (IEEE `!=` is true on
`nan`, and so is inequality with `F.num 0` here). -/
def eval_expr : Expr → AListM F → AListM F → F
  | .Literal v, _, _ => v
  | .Var name, scalars, row =>
    match aget row name with
    | some v => v
    | none =>
      match aget scalars name with
      | some v => v
      | none => F.num 0
  | .BinOp op left right, scalars, row =>
    let l := eval_expr left scalars row
    let r := eval_expr right scalars row
    match op with
    | "+" => F.fadd l r
    | "-" => F.fsub l r
    | "*" => F.fmul l r
    | "/" => if r = F.num 0 then F.num 0 else F.fdivRaw l r
    | ">" => if F.fgt l r then F.num 1 else F.num 0
    | ">=" => if F.fge l r then F.num 1 else F.num 0
    | "<" => if F.flt l r then F.num 1 else F.num 0
    | "<=" => if F.fle l r then F.num 1 else F.num 0
    | "==" => if F.flt (F.fabs (F.fsub l r)) tol then F.num 1 else F.num 0
    | _ => F.num 0
  | .Call func args, scalars, row =>
    let arg_vals := eval_args args scalars row
    match func with
    | "min" => arg_vals.foldl F.fmin F.pinf
    | "max" => arg_vals.foldl F.fmax F.ninf
    | "abs" =>
      match arg_vals.head? with
      | some v => F.fabs v
      | none => F.num 0
    | "round" =>
      match arg_vals.head? with
      | some v => F.fround v
      | none => F.num 0
    | _ => F.num 0
  | .Cond cond then_expr else_expr, scalars, row =>
    let c := eval_expr cond scalars row
    if c ≠ F.num 0 then eval_expr then_expr scalars row
    else eval_expr else_expr scalars row

/-- The argument-value list `arg_vals` of the `Call` arm: evaluate each
argument in order. -/
def eval_args : ExprList → AListM F → AListM F → List F
  | .nil, _, _ => []
  | .cons a rest, scalars, row => eval_expr a scalars row :: eval_args rest scalars row
end

example : eval_expr (.BinOp "+" (.Literal (F.num 2)) (.Literal (F.num 3))) aempty aempty
    = F.num 5 := by simp [eval_expr]; norm_num [F.fadd]

example : eval_expr (.Call "max" (.ofList [.Literal (F.num 3), .Literal (F.num 5), .Literal (F.num (-1))]))
    aempty aempty = F.num 5 := by decide

example : eval_expr (.Call "round" (.ofList [.Literal (F.num (26/10))])) aempty aempty
    = F.num 3 := by
  simp [eval_expr, eval_args, ExprList.ofList, F.fround, F.rustRound]
  norm_num

example : eval_expr (.Var "missing") aempty aempty = F.num 0 := by decide

/-! ## The PyO3 boundary

`execute_fast` receives Python objects. We embed the Python values that
can cross the boundary as `PyVal`, `PyResult` as `Except PErr`, and the
`unwrap()` panic on a non-dict data record as the error value
`PErr.panic` (PyO3 catches the unwind and surfaces it to the Python
caller as an exception). -/

/-- Error outcomes at the Python boundary: a failed `get_item` on a
missing dict key (KeyError), a failed extraction or downcast (TypeError),
and a Rust panic reaching the PyO3 boundary. -/
inductive PErr where
  | keyError
  | typeError
  | panic
deriving DecidableEq, Repr

/-- A Python value crossing the boundary: `None`, a number (int/float,
anything `extract::<f64>` accepts), a string, a list, or a dict whose
keys may be arbitrary values. -/
inductive PyVal where
  | vnone
  | vnum (v : F)
  | vstr (s : String)
  | vlist (xs : List PyVal)
  | vdict (entries : List (PyVal × PyVal))

/-- Whether a dict key equals the string `k`. -/
def keyIs (k : String) : PyVal → Bool
  | .vstr s => s == k
  | _ => false

/-- Embeds `obj.get_item(k)`: dict lookup; `KeyError` on a missing key,
`TypeError` on a non-subscriptable value. -/
def PyVal.getItem (obj : PyVal) (k : String) : Except PErr PyVal :=
  match obj with
  | .vdict entries =>
    match entries.find? (fun e => keyIs k e.1) with
    | some e => Except.ok e.2
    | none => Except.error PErr.keyError
  | _ => Except.error PErr.typeError

/-- Embeds `v.extract::<f64>()` as an `Option`: succeeds exactly on numbers. -/
def extractF64 : PyVal → Option F
  | .vnum v => some v
  | _ => none

/-- Embeds `v.extract::<String>()` as an `Option`: succeeds exactly on strings. -/
def extractString : PyVal → Option String
  | .vstr s => some s
  | _ => none

/-- The function `parse_expr` from `src/lib.rs`, with a recursion-depth fuel (the Rust
function recurses on the nesting depth of the Python object). An
unrecognized `type` tag yields `Literal(0.0)`; a missing key or a failed
extraction propagates as an error via `?`. -/
def parse_expr : Nat → PyVal → Except PErr Expr
  | 0, _ => Except.error PErr.panic
  | Nat.succ fuel, obj => do
    let t ← obj.getItem "type"
    match extractString t with
    | none => Except.error PErr.typeError
    | some ts =>
      match ts with
      | "literal" => do
        let v ← obj.getItem "value"
        match extractF64 v with
        | some q => Except.ok (.Literal q)
        | none => Except.error PErr.typeError
      | "var" => do
        let p ← obj.getItem "path"
        match extractString p with
        | some path => Except.ok (.Var path)
        | none => Except.error PErr.typeError
      | "binop" => do
        let o ← obj.getItem "op"
        match extractString o with
        | none => Except.error PErr.typeError
        | some op => do
          let left ← parse_expr fuel (← obj.getItem "left")
          let right ← parse_expr fuel (← obj.getItem "right")
          Except.ok (.BinOp op left right)
      | "call" => do
        let f ← obj.getItem "func"
        match extractString f with
        | none => Except.error PErr.typeError
        | some func => do
          let al ← obj.getItem "args"
          match al with
          | .vlist xs => do
            let args ← xs.mapM (parse_expr fuel)
            Except.ok (.Call func (ExprList.ofList args))
          | _ => Except.error PErr.typeError
      | "cond" => do
        let cond ← parse_expr fuel (← obj.getItem "cond")
        let then_expr ← parse_expr fuel (← obj.getItem "then")
        let else_expr ← parse_expr fuel (← obj.getItem "else")
        Except.ok (.Cond cond then_expr else_expr)
      | _ => Except.ok (.Literal (F.num 0))

/-- A parsed variable definition (`struct Variable` in `src/lib.rs`). -/
structure Variable where
  path : String
  entity : Option String
  expr : Expr

/-- Decoding of one variable record in `execute_fast` (lines 127-131):
`path` is extracted with `?` (its absence or a non-string value is an
error); `entity` is fetched with `get_item(..)?` — so a MISSING key is an
error — and then extracted with `.extract::<String>().ok()`, so a null or
non-string value becomes `None`; `expr` is parsed with `?`. -/
def parseVariable (fuel : Nat) (var_obj : PyVal) : Except PErr Variable := do
  let p ← var_obj.getItem "path"
  match extractString p with
  | none => Except.error PErr.typeError
  | some path => do
    let e ← var_obj.getItem "entity"
    let entity : Option String := extractString e
    let ex ← var_obj.getItem "expr"
    let expr ← parse_expr fuel ex
    Except.ok ⟨path, entity, expr⟩

/-- Ingestion of one data record in `execute_fast` (lines 151-162): a
non-dict record hits `downcast::<PyDict>().unwrap()`, a panic; for a dict,
each entry whose key extracts as a string and whose value extracts as a
number is kept (`filter_map`), every other entry is silently dropped. -/
def rowStep (acc : AListM F) (kv : PyVal × PyVal) : AListM F :=
  match kv.1 with
  | .vstr k =>
    match extractF64 kv.2 with
    | some v => ainsert acc k v
    | none => acc
  | _ => acc

def parseRow (row : PyVal) : Except PErr (AListM F) :=
  match row with
  | .vdict entries => Except.ok (entries.foldl rowStep aempty)
  | _ => Except.error PErr.panic

/-- Ingestion of the whole data list, stopping at the first failure
(the panic aborts the `map`/`collect` at the offending record). -/
def parseRows : List PyVal → Except PErr (List (AListM F))
  | [] => Except.ok []
  | d :: rest => do
    let row ← parseRow d
    let rows ← parseRows rest
    Except.ok (row :: rows)

/-! ## The execution core

The body of `execute_fast` after decoding: registry construction, the
sequential scalar pass, the per-row evaluation plan, and the (rayon)
parallel map over rows. Rayon's indexed `par_iter().map().collect()` is
order-preserving, so the parallel map is embedded as `List.map`. -/

/-- Registry construction (lines 125-132): fold the decoded variables
into an identifier-keyed map; a later duplicate path replaces an earlier
one, as `HashMap::insert` does. -/
def buildVarMap (vars : List Variable) : AListM Variable :=
  vars.foldl (fun m v => ainsert m v.path v) aempty

/-- One step of the scalar pass (the body of the loop at lines 141-148):
unknown identifiers are skipped; a variable with `entity = None` is
evaluated against the scalars so far with empty row bindings and
inserted; an entity-scoped variable is skipped. -/
def scalarStep (var_map : AListM Variable) (scalars : AListM F) (path : String) :
    AListM F :=
  match aget var_map path with
  | some var =>
    match var.entity with
    | none => ainsert scalars path (eval_expr var.expr scalars aempty)
    | some _ => scalars
  | none => scalars

/-- The scalar pass (lines 140-148): one sequential fold over the
execution order starting from the empty map. -/
def computeScalars (var_map : AListM Variable) (exec_order : List String) : AListM F :=
  exec_order.foldl (scalarStep var_map) aempty

/-- The per-row evaluation plan `entity_vars` (lines 165-168): the
execution order, mapped through the registry (unknown identifiers
dropped), filtered to variables of the requested entity tag. -/
def entityVars (var_map : AListM Variable) (exec_order : List String)
    (entity_name : String) : List Variable :=
  (exec_order.filterMap (fun path => aget var_map path)).filter
    (fun v => v.entity = some entity_name)

/-- Processing of one row (the closure at lines 172-179): starting from a
clone of the row's input bindings, evaluate each plan variable in order
against (scalar bindings, the row's own bindings so far) and insert the
result under its path. -/
def processRow (scalars : AListM F) (plan : List Variable) (row : AListM F) :
    AListM F :=
  plan.foldl (fun row_data var =>
    ainsert row_data var.path (eval_expr var.expr scalars row_data)) row

/-- The execution core of `execute_fast` on decoded inputs: registry,
scalar pass, plan, then an (order-preserving parallel) map over rows. -/
def run_core (vars : List Variable) (exec_order : List String)
    (entity_name : String) (rows : List (AListM F)) : List (AListM F) :=
  rows.map (processRow
    (computeScalars (buildVarMap vars) exec_order)
    (entityVars (buildVarMap vars) exec_order entity_name))

/-- The function `execute_fast` from `src/lib.rs`, end to end: decode the variable
records, the execution order and the data records in the order the Rust
code does, then run the core. The final conversion of each output map
back to a Python dict is the identity on the embedded bindings. -/
def execute_fast (fuel : Nat) (var_objs : List PyVal) (order : List PyVal)
    (entity_name : String) (data : List PyVal) : Except PErr (List (AListM F)) := do
  let vars ← var_objs.mapM (parseVariable fuel)
  let exec_order ← order.mapM (fun o =>
    match extractString o with
    | some s => Except.ok s
    | none => Except.error PErr.typeError)
  let var_map := buildVarMap vars
  let scalars := computeScalars var_map exec_order
  let rows ← parseRows data
  let plan := entityVars var_map exec_order entity_name
  Except.ok (rows.map (processRow scalars plan))

/-! ## Map and fold lemmas -/

@[simp] theorem except_bind_ok {α β : Type} (a : α) (f : α → Except PErr β) :
    (Except.ok a : Except PErr α) >>= f = f a := rfl

@[simp] theorem except_bind_error {α β : Type} (e : PErr) (f : α → Except PErr β) :
    (Except.error e : Except PErr α) >>= f = Except.error e := rfl

theorem find?_filter_of_ne {α : Type} (m : AListM α) (k k2 : String) (h : k2 ≠ k) :
    (m.filter (fun p => p.1 != k)).find? (fun p => p.1 == k2)
      = m.find? (fun p => p.1 == k2) := by
  induction m with
  | nil => rfl
  | cons a m ih =>
    by_cases hk : a.1 = k
    · have h1 : (a.1 != k) = false := by simp [hk]
      have h2 : (a.1 == k2) = false := by simp [hk]; exact fun e => h e.symm
      simp [List.filter_cons, h1, List.find?_cons, h2, ih]
    · have h1 : (a.1 != k) = true := by simp [hk]
      by_cases hm : a.1 = k2
      · simp [List.filter_cons, h1, List.find?_cons, hm, h]
      · have h2 : (a.1 == k2) = false := by simp [hm]
        simp [List.filter_cons, h1, List.find?_cons, h2, ih]

/-- A lookup after an insertion: the inserted key reads back the inserted
value; any other key is unaffected. -/
theorem aget_ainsert {α : Type} (m : AListM α) (k k2 : String) (v : α) :
    aget (ainsert m k v) k2 = if k2 = k then some v else aget m k2 := by
  by_cases h : k2 = k
  · subst h; simp [aget, ainsert, List.find?]
  · have h2 : (k == k2) = false := by simp; exact fun e => h e.symm
    simp [aget, ainsert, List.find?, h2, h, find?_filter_of_ne m k k2 h]

theorem aget_ainsert_self {α : Type} (m : AListM α) (k : String) (v : α) :
    aget (ainsert m k v) k = some v := by
  simp [aget_ainsert]

theorem aget_ainsert_ne {α : Type} (m : AListM α) (k k2 : String) (v : α)
    (h : k2 ≠ k) : aget (ainsert m k v) k2 = aget m k2 := by
  simp [aget_ainsert, h]

theorem aget_ainsert_isSome {α : Type} (m : AListM α) (k k2 : String) (v : α) :
    (aget (ainsert m k v) k2).isSome = (k2 = k ∨ (aget m k2).isSome) := by
  by_cases h : k2 = k <;> simp [aget_ainsert, h]

theorem processRow_nil (scalars : AListM F) (row : AListM F) :
    processRow scalars [] row = row := rfl

theorem processRow_cons (scalars : AListM F) (v : Variable) (plan : List Variable)
    (row : AListM F) :
    processRow scalars (v :: plan) row
      = processRow scalars plan (ainsert row v.path (eval_expr v.expr scalars row)) := rfl

/-- Keys untouched by the plan keep their input value: processing a row
only writes the paths of the plan's variables. -/
theorem processRow_frame (scalars : AListM F) (plan : List Variable)
    (row : AListM F) (k : String) (h : k ∉ plan.map (fun v => v.path)) :
    aget (processRow scalars plan row) k = aget row k := by
  induction plan generalizing row with
  | nil => rfl
  | cons v plan ih =>
    simp only [List.map_cons, List.mem_cons, not_or] at h
    rw [processRow_cons, ih _ h.2, aget_ainsert_ne _ _ _ _ h.1]

/-- Domain of a processed row: exactly the input fields together with the
plan's variable paths. -/
theorem processRow_isSome (scalars : AListM F) (plan : List Variable)
    (row : AListM F) (k : String) :
    (aget (processRow scalars plan row) k).isSome
      = ((aget row k).isSome ∨ k ∈ plan.map (fun v => v.path)) := by
  induction plan generalizing row with
  | nil => simp [processRow_nil]
  | cons v plan ih =>
    rw [processRow_cons, ih]
    simp [aget_ainsert_isSome]
    tauto

/-! ## Concrete instances from the specification's examples -/

/-- The scalar variable `threshold = 18`. -/
def exThreshold : Variable := ⟨"threshold", none, .Literal (F.num 18)⟩

/-- The row-scoped variable `is_adult = (age >= threshold)`. -/
def exIsAdult : Variable :=
  ⟨"is_adult", some "person", .BinOp ">=" (.Var "age") (.Var "threshold")⟩

/-- The variable definitions of the scalar-referencing-row example. -/
def exVars : List Variable := [exThreshold, exIsAdult]

/-- The execution order of the scalar-referencing-row example. -/
def exOrder : List String := ["threshold", "is_adult"]

/-- The dataset `[{age:17},{age:18}]`. -/
def exRows : List (AListM F) := [[("age", F.num 17)], [("age", F.num 18)]]

example : run_core exVars exOrder "person" exRows
    = [[("is_adult", F.num 0), ("age", F.num 17)],
       [("is_adult", F.num 1), ("age", F.num 18)]] := by decide

/-- The row-scoped variable `double = age * 2` of the row-independence
example. -/
def dblVar : Variable :=
  ⟨"double", some "person", .BinOp "*" (.Var "age") (.Literal (F.num 2))⟩

/-- The dataset `[{age:10},{age:20}]`. -/
def dblRows : List (AListM F) := [[("age", F.num 10)], [("age", F.num 20)]]

example : run_core [dblVar] ["double"] "person" dblRows
    = [[("double", F.num 20), ("age", F.num 10)],
       [("double", F.num 40), ("age", F.num 20)]] := by
  simp [run_core, buildVarMap, computeScalars, scalarStep, entityVars, processRow,
    dblVar, dblRows, eval_expr, aget, ainsert, aempty, F.fmul, List.filterMap]
  norm_num

/-! ## Claim theorems -/

/-- C4: for every identifier and pair of binding maps, a variable
reference evaluates to the row-scope binding when present (shadowing any
scalar binding), otherwise to the scalar-scope binding when present,
otherwise to 0.0 — never an error (the evaluator is total by
construction). -/
theorem C4_var_lookup_order (name : String) (scalars row : AListM F) :
    (∀ v, aget row name = some v → eval_expr (.Var name) scalars row = v) ∧
    (aget row name = none → ∀ v, aget scalars name = some v →
      eval_expr (.Var name) scalars row = v) ∧
    (aget row name = none → aget scalars name = none →
      eval_expr (.Var name) scalars row = F.num 0) := by
  refine ⟨fun v h => ?_, fun h v h2 => ?_, fun h h2 => ?_⟩ <;> simp [eval_expr, h, *]

/-- Witness for C4: `x` bound to 5 in the row and 7 in the scalars reads
back 5 (row shadows scalar); with no row binding it reads 7; with no
binding at all it reads 0. -/
theorem C4_var_lookup_order_witness :
    eval_expr (.Var "x") [("x", F.num 7)] [("x", F.num 5)] = F.num 5 ∧
    eval_expr (.Var "x") [("x", F.num 7)] [] = F.num 7 ∧
    eval_expr (.Var "x") [] [] = F.num 0 :=
  ⟨(C4_var_lookup_order "x" [("x", F.num 7)] [("x", F.num 5)]).1 _ rfl,
   (C4_var_lookup_order "x" [("x", F.num 7)] []).2.1 rfl _ rfl,
   (C4_var_lookup_order "x" [] []).2.2 rfl rfl⟩

/-- C5: a conditional returns the then-branch evaluation exactly when the
condition's value is nonzero (any nonzero value, not only 1.0) and the
else-branch evaluation when it is zero; the unselected branch has no
influence on the result (the shallow rendering of "only the selected
branch is evaluated" for this total, side-effect-free evaluator). -/
theorem C5_conditional_semantics (cond then_expr else_expr : Expr)
    (scalars row : AListM F) :
    (eval_expr cond scalars row ≠ F.num 0 →
      eval_expr (.Cond cond then_expr else_expr) scalars row
        = eval_expr then_expr scalars row) ∧
    (eval_expr cond scalars row = F.num 0 →
      eval_expr (.Cond cond then_expr else_expr) scalars row
        = eval_expr else_expr scalars row) ∧
    (∀ e2, eval_expr cond scalars row ≠ F.num 0 →
      eval_expr (.Cond cond then_expr e2) scalars row
        = eval_expr (.Cond cond then_expr else_expr) scalars row) ∧
    (∀ t2, eval_expr cond scalars row = F.num 0 →
      eval_expr (.Cond cond t2 else_expr) scalars row
        = eval_expr (.Cond cond then_expr else_expr) scalars row) := by
  refine ⟨fun h => ?_, fun h => ?_, fun e2 h => ?_, fun t2 h => ?_⟩ <;>
    simp [eval_expr, h]

/-- Witness for C5: condition 2.0 (nonzero but not 1.0) selects the
then-branch; condition 0.0 makes the then-branch irrelevant. -/
theorem C5_conditional_semantics_witness :
    eval_expr (.Cond (.Literal (F.num 2)) (.Literal (F.num 10)) (.Literal (F.num 20)))
      [] [] = F.num 10 ∧
    eval_expr (.Cond (.Literal (F.num 0)) (.Var "would_be_wrong") (.Literal (F.num 20)))
      [] [] = eval_expr (.Cond (.Literal (F.num 0)) (.Literal (F.num 10)) (.Literal (F.num 20))) [] [] :=
  ⟨(C5_conditional_semantics (.Literal (F.num 2)) (.Literal (F.num 10))
      (.Literal (F.num 20)) [] []).1 (by decide),
   (C5_conditional_semantics (.Literal (F.num 0)) (.Literal (F.num 10))
      (.Literal (F.num 20)) [] []).2.2.2 (.Var "would_be_wrong") (by decide)⟩

/-- C6: a division whose right operand evaluates to exactly zero returns
0.0 — in particular not `+inf`, `-inf` or `nan` — and the (total)
evaluation cannot raise. -/
theorem C6_division_by_zero (left right : Expr) (scalars row : AListM F)
    (h : eval_expr right scalars row = F.num 0) :
    eval_expr (.BinOp "/" left right) scalars row = F.num 0 := by
  simp [eval_expr, h]

/-- Witness for C6: `5.0 / 0.0` evaluates to 0.0. -/
theorem C6_division_by_zero_witness :
    eval_expr (.BinOp "/" (.Literal (F.num 5)) (.Literal (F.num 0))) [] [] = F.num 0 :=
  C6_division_by_zero (.Literal (F.num 5)) (.Literal (F.num 0)) [] [] rfl

/-- C8: `min` (resp. `max`) folds `f64::min` (resp. `f64::max`) over the
evaluated argument values; with an empty argument list they return
`+inf` (resp. `-inf`) rather than erroring; and the spec's concrete
instance `max(3, 5, -1) = 5` holds. -/
theorem C8_min_max_fold (args : ExprList) (scalars row : AListM F) :
    eval_expr (.Call "min" args) scalars row
      = (eval_args args scalars row).foldl F.fmin F.pinf ∧
    eval_expr (.Call "max" args) scalars row
      = (eval_args args scalars row).foldl F.fmax F.ninf ∧
    eval_expr (.Call "min" .nil) scalars row = F.pinf ∧
    eval_expr (.Call "max" .nil) scalars row = F.ninf ∧
    eval_expr (.Call "max" (.ofList [.Literal (F.num 3), .Literal (F.num 5),
      .Literal (F.num (-1))])) scalars row = F.num 5 :=
  ⟨rfl, rfl, rfl, rfl, rfl⟩

/-- C7: the scalar pass is a single fold over the execution order, and
one step behaves as follows: an identifier missing from the registry is
silently skipped; a variable with scope `None` is evaluated against the
scalars accumulated so far with empty row bindings and the result is
inserted under the identifier; an entity-scoped variable is left
untouched. -/
theorem C7_scalar_pass_step (var_map : AListM Variable) (exec_order : List String)
    (p : String) :
    (aget var_map p = none →
      computeScalars var_map (exec_order ++ [p]) = computeScalars var_map exec_order) ∧
    (∀ v, aget var_map p = some v → v.entity = none →
      computeScalars var_map (exec_order ++ [p])
        = ainsert (computeScalars var_map exec_order) p
            (eval_expr v.expr (computeScalars var_map exec_order) aempty)) ∧
    (∀ v t, aget var_map p = some v → v.entity = some t →
      computeScalars var_map (exec_order ++ [p]) = computeScalars var_map exec_order) := by
  have key : computeScalars var_map (exec_order ++ [p])
      = scalarStep var_map (computeScalars var_map exec_order) p := by
    simp [computeScalars, List.foldl_append]
  refine ⟨fun h => by rw [key]; simp [scalarStep, h],
    fun v h he => by rw [key]; simp [scalarStep, h, he],
    fun v t h he => by rw [key]; simp [scalarStep, h, he]⟩

/-- Witness for C7: in the spec example, appending `"threshold"` (a
scalar variable) to an empty order inserts its value; appending
`"is_adult"` (entity-scoped) or `"undefined"` (not registered) changes
nothing. -/
theorem C7_scalar_pass_step_witness :
    computeScalars (buildVarMap exVars) ["threshold"]
      = ainsert (computeScalars (buildVarMap exVars) []) "threshold"
          (eval_expr exThreshold.expr (computeScalars (buildVarMap exVars) []) aempty) ∧
    computeScalars (buildVarMap exVars) ["is_adult"]
      = computeScalars (buildVarMap exVars) [] ∧
    computeScalars (buildVarMap exVars) ["undefined"]
      = computeScalars (buildVarMap exVars) [] :=
  ⟨(C7_scalar_pass_step (buildVarMap exVars) [] "threshold").2.1 exThreshold rfl rfl,
   (C7_scalar_pass_step (buildVarMap exVars) [] "is_adult").2.2 exIsAdult "person" rfl rfl,
   (C7_scalar_pass_step (buildVarMap exVars) [] "undefined").1 rfl⟩

/-- C1: the row executor returns one output row per input row; output row
`i` is the processing of input row `i` (index alignment); every variable
of the per-row plan has scope equal to the requested entity tag; and a
processed row's fields are exactly the input row's fields together with
one field per plan variable, each computed by the in-order fold that
makes earlier results visible to later variables of the same row. -/
theorem C1_row_executor_contract (vars : List Variable) (exec_order : List String)
    (entity_name : String) (rows : List (AListM F)) :
    (run_core vars exec_order entity_name rows).length = rows.length ∧
    (∀ (i : Nat) (row : AListM F), rows[i]? = some row →
      (run_core vars exec_order entity_name rows)[i]?
        = some (processRow (computeScalars (buildVarMap vars) exec_order)
            (entityVars (buildVarMap vars) exec_order entity_name) row)) ∧
    (∀ v ∈ entityVars (buildVarMap vars) exec_order entity_name,
      v.entity = some entity_name) ∧
    (∀ row k,
      (aget (processRow (computeScalars (buildVarMap vars) exec_order)
          (entityVars (buildVarMap vars) exec_order entity_name) row) k).isSome
        = ((aget row k).isSome ∨
            k ∈ (entityVars (buildVarMap vars) exec_order entity_name).map
              (fun v => v.path))) := by
  refine ⟨by simp [run_core], fun i row h => ?_, fun v hv => ?_, fun row k => ?_⟩
  · simp [run_core, List.getElem?_map, h]
  · have := (List.mem_filter.mp hv).2
    simpa using this
  · exact processRow_isSome _ _ _ _

/-- Witness for C1 at the spec's scalar-referencing-row example: the
second output row is the processing of the second input row, and its
field set is `age` plus `is_adult`. -/
theorem C1_row_executor_contract_witness :
    (run_core exVars exOrder "person" exRows)[1]?
      = some (processRow (computeScalars (buildVarMap exVars) exOrder)
          (entityVars (buildVarMap exVars) exOrder "person") [("age", F.num 18)]) ∧
    (aget (processRow (computeScalars (buildVarMap exVars) exOrder)
        (entityVars (buildVarMap exVars) exOrder "person") [("age", F.num 18)])
      "is_adult").isSome
      = ((aget ([("age", F.num 18)] : AListM F) "is_adult").isSome ∨
          "is_adult" ∈ (entityVars (buildVarMap exVars) exOrder "person").map
            (fun v => v.path)) :=
  ⟨(C1_row_executor_contract exVars exOrder "person" exRows).2.1 1 _ rfl,
   (C1_row_executor_contract exVars exOrder "person" exRows).2.2.2 [("age", F.num 18)]
     "is_adult"⟩

/-- C9: reindexing the input rows reindexes the output identically: the
output for the dataset `[rows[i] : i ∈ idx]` is `[output[i] : i ∈ idx]`,
because each output row is a function only of its own input row, the
scalar bindings and the evaluation plan. Permutations are the special
case where `idx` enumerates every position once. -/
theorem C9_row_independence (vars : List Variable) (exec_order : List String)
    (entity_name : String) (rows : List (AListM F)) (idx : List Nat)
    (h : ∀ i ∈ idx, i < rows.length) :
    run_core vars exec_order entity_name (idx.map (fun i => rows.getD i aempty))
      = idx.map (fun i =>
          (run_core vars exec_order entity_name rows).getD i aempty) := by
  unfold run_core
  rw [List.map_map]
  apply List.map_eq_map_iff.mpr
  intro i hi
  have hlt := h i hi
  rcases hx : rows[i]? with _ | r
  · rw [List.getElem?_eq_none_iff] at hx
    omega
  · simp [List.getD_eq_getElem?_getD, List.getElem?_map, hx]

/-- Witness for C9 at the spec's `double = age * 2` example: swapping the
two input rows swaps the two output rows. -/
theorem C9_row_independence_witness :
    run_core [dblVar] ["double"] "person"
        ([1, 0].map (fun i => dblRows.getD i aempty))
      = [1, 0].map (fun i =>
          (run_core [dblVar] ["double"] "person" dblRows).getD i aempty) :=
  C9_row_independence [dblVar] ["double"] "person" dblRows [1, 0] (by decide)

/-- C10: when an input row already has a field named like the first plan
variable, processing overwrites it: the output carries the computed
value under that name, a variable reference resolves to the computed
value in the updated bindings (what every later plan variable sees), and
the output's field set is the input's fields together with the plan's
paths — no field is added for the colliding name. -/
theorem C10_computed_overwrites_input (scalars : AListM F) (v : Variable)
    (plan2 : List Variable) (row : AListM F) (orig : F)
    (_h1 : aget row v.path = some orig)
    (h2 : ∀ w ∈ plan2, w.path ≠ v.path) :
    aget (processRow scalars (v :: plan2) row) v.path
      = some (eval_expr v.expr scalars row) ∧
    eval_expr (.Var v.path) scalars
        (ainsert row v.path (eval_expr v.expr scalars row))
      = eval_expr v.expr scalars row ∧
    (∀ k, (aget (processRow scalars (v :: plan2) row) k).isSome
      = ((aget row k).isSome ∨ k ∈ (v :: plan2).map (fun w => w.path))) := by
  refine ⟨?_, ?_, fun k => processRow_isSome _ _ _ _⟩
  · rw [processRow_cons, processRow_frame, aget_ainsert_self]
    simp only [List.mem_map, not_exists, not_and]
    intro w hw
    exact h2 w hw
  · simp [eval_expr, aget_ainsert_self]

/-- Witness for C10: input row `{age: 17}` with a row-scoped variable
also named `age` computing 99: the output's `age` field is 99, and a
later read of `age` in the updated bindings yields 99. -/
theorem C10_computed_overwrites_input_witness :
    aget (processRow [] [⟨"age", some "person", .Literal (F.num 99)⟩] [("age", F.num 17)])
      "age" = some (eval_expr (.Literal (F.num 99)) [] [("age", F.num 17)]) ∧
    eval_expr (.Var "age") []
        (ainsert [("age", F.num 17)] "age"
          (eval_expr (.Literal (F.num 99)) [] [("age", F.num 17)]))
      = eval_expr (.Literal (F.num 99)) [] [("age", F.num 17)] :=
  ⟨(C10_computed_overwrites_input [] ⟨"age", some "person", .Literal (F.num 99)⟩ []
      [("age", F.num 17)] (F.num 17) rfl (by simp)).1,
   (C10_computed_overwrites_input [] ⟨"age", some "person", .Literal (F.num 99)⟩ []
      [("age", F.num 17)] (F.num 17) rfl (by simp)).2.1⟩

/-- Field-level domain of row ingestion: after folding the dict entries,
a field is present exactly when some entry has that string key and a
numeric value. -/
theorem rowFold_isSome (entries : List (PyVal × PyVal)) (acc : AListM F) (k : String) :
    (aget (entries.foldl rowStep acc) k).isSome
      ↔ ((aget acc k).isSome ∨
          ∃ e ∈ entries, e.1 = PyVal.vstr k ∧ (extractF64 e.2).isSome) := by
  induction entries generalizing acc with
  | nil => simp
  | cons e entries ih =>
    rw [List.foldl_cons]
    rcases e with ⟨ek, ev⟩
    cases ek with
    | vstr s =>
      cases ev with
      | vnum w =>
        rw [show rowStep acc (PyVal.vstr s, PyVal.vnum w) = ainsert acc s w from rfl, ih]
        simp [aget_ainsert_isSome, extractF64, List.mem_cons]
        tauto
      | vnone =>
        rw [show rowStep acc (PyVal.vstr s, PyVal.vnone) = acc from rfl, ih]
        simp [extractF64]
      | vstr s2 =>
        rw [show rowStep acc (PyVal.vstr s, PyVal.vstr s2) = acc from rfl, ih]
        simp [extractF64]
      | vlist xs =>
        rw [show rowStep acc (PyVal.vstr s, PyVal.vlist xs) = acc from rfl, ih]
        simp [extractF64]
      | vdict es =>
        rw [show rowStep acc (PyVal.vstr s, PyVal.vdict es) = acc from rfl, ih]
        simp [extractF64]
    | vnone =>
      rw [show rowStep acc (PyVal.vnone, ev) = acc from rfl, ih]
      simp
    | vnum w =>
      rw [show rowStep acc (PyVal.vnum w, ev) = acc from rfl, ih]
      simp
    | vlist xs =>
      rw [show rowStep acc (PyVal.vlist xs, ev) = acc from rfl, ih]
      simp
    | vdict es =>
      rw [show rowStep acc (PyVal.vdict es, ev) = acc from rfl, ih]
      simp

/-- A data record that is not a dict hits the `unwrap()` panic. -/
theorem parseRow_nondict (r : PyVal) (h : ∀ es, r ≠ PyVal.vdict es) :
    parseRow r = Except.error PErr.panic := by
  cases r with
  | vdict es => exact absurd rfl (h es)
  | vnone => rfl
  | vnum v => rfl
  | vstr s => rfl
  | vlist xs => rfl

/-- A dataset containing a non-dict record makes the whole ingestion
fail with an error. -/
theorem parseRows_error (data : List PyVal)
    (h : ∃ r ∈ data, ∀ es, r ≠ PyVal.vdict es) :
    ∃ e, parseRows data = Except.error e := by
  induction data with
  | nil => simp at h
  | cons d data ih =>
    obtain ⟨r, hr, hne⟩ := h
    rcases List.mem_cons.mp hr with rfl | hmem
    · exact ⟨PErr.panic, by simp [parseRows, parseRow_nondict r hne]⟩
    · obtain ⟨e, he⟩ := ih ⟨r, hmem, hne⟩
      rcases hd : parseRow d with ed | rowd
      · exact ⟨ed, by simp [parseRows, hd]⟩
      · exact ⟨e, by simp [parseRows, hd, he]⟩

/-- C2 counterexample: a well-formed variable record from which only the
`entity` key is absent does not decode to a scalar-scoped variable — the
`get_item("entity")?` call propagates a KeyError to the caller. -/
def recNoEntity : PyVal :=
  .vdict [(.vstr "path", .vstr "x"),
          (.vstr "expr", .vdict [(.vstr "type", .vstr "literal"),
                                 (.vstr "value", .vnum (F.num 1))])]

/-- C2, refuted as stated: decoding the record with an absent `entity`
field fails with a KeyError instead of succeeding with scope `None`. -/
theorem C2_absent_entity_counterexample :
    parseVariable 5 recNoEntity = Except.error PErr.keyError := rfl

/-- C2 (amended): an `entity` field that is present but null decodes to
scope `None` (the `extract::<String>().ok()` failure is absorbed); an
`entity` field that is absent makes decoding of the record fail, the
`get_item` KeyError propagating to the caller. -/
theorem C2_entity_decoding (fuel : Nat) (var_obj : PyVal) (pathv : String)
    (ex : PyVal) :
    (var_obj.getItem "path" = Except.ok (.vstr pathv) →
      var_obj.getItem "entity" = Except.ok PyVal.vnone →
      var_obj.getItem "expr" = Except.ok ex →
      ∀ e, parse_expr fuel ex = Except.ok e →
        parseVariable fuel var_obj = Except.ok ⟨pathv, none, e⟩) ∧
    (var_obj.getItem "path" = Except.ok (.vstr pathv) →
      var_obj.getItem "entity" = Except.error PErr.keyError →
      parseVariable fuel var_obj = Except.error PErr.keyError) := by
  constructor
  · intro hp hent hex e hpe
    simp [parseVariable, hp, hent, hex, hpe, extractString]
  · intro hp hent
    simp [parseVariable, hp, hent, extractString]

/-- Witness for C2 (amended): a record with `entity: None` decodes to a
scalar-scoped (`entity = none`) variable; the same record without the
`entity` key fails with a KeyError. -/
theorem C2_entity_decoding_witness :
    parseVariable 5 (.vdict [(.vstr "path", .vstr "x"),
        (.vstr "entity", .vnone),
        (.vstr "expr", .vdict [(.vstr "type", .vstr "literal"),
                               (.vstr "value", .vnum (F.num 1))])])
      = Except.ok ⟨"x", none, .Literal (F.num 1)⟩ ∧
    parseVariable 5 recNoEntity = Except.error PErr.keyError :=
  ⟨(C2_entity_decoding 5 (.vdict [(.vstr "path", .vstr "x"),
      (.vstr "entity", .vnone),
      (.vstr "expr", .vdict [(.vstr "type", .vstr "literal"),
                             (.vstr "value", .vnum (F.num 1))])])
      "x"
      (.vdict [(.vstr "type", .vstr "literal"), (.vstr "value", .vnum (F.num 1))])).1
    rfl rfl rfl (.Literal (F.num 1)) rfl,
   (C2_entity_decoding 5 recNoEntity "x"
      (.vdict [(.vstr "type", .vstr "literal"), (.vstr "value", .vnum (F.num 1))])).2
    rfl rfl⟩

/-- C3: during row ingestion a flat mapping always decodes, keeping
exactly the fields with a string key and a numeric value (every other
field is silently dropped), while a record that is not a flat mapping
surfaces to the caller as an error for the whole call rather than being
silently absorbed. -/
theorem C3_row_ingestion (entries : List (PyVal × PyVal)) (r : PyVal)
    (data : List PyVal) :
    parseRow (.vdict entries) = Except.ok (entries.foldl rowStep aempty) ∧
    (∀ k : String, (aget (entries.foldl rowStep aempty) k).isSome
      ↔ ∃ e ∈ entries, e.1 = PyVal.vstr k ∧ (extractF64 e.2).isSome) ∧
    ((∀ es, r ≠ PyVal.vdict es) → parseRow r = Except.error PErr.panic) ∧
    ((∃ r2 ∈ data, ∀ es, r2 ≠ PyVal.vdict es) →
      ∃ e, parseRows data = Except.error e) := by
  refine ⟨rfl, fun k => ?_, parseRow_nondict r, parseRows_error data⟩
  rw [rowFold_isSome]
  simp [aget, aempty]

/-- Witness for C3: the record `{age: 17, name: "bob", 3: 1}` keeps only
`age`; a dataset whose second record is the number 5 fails ingestion. -/
theorem C3_row_ingestion_witness :
    ((aget ([(PyVal.vstr "age", PyVal.vnum (F.num 17)),
             (PyVal.vstr "name", PyVal.vstr "bob"),
             (PyVal.vnum (F.num 3), PyVal.vnum (F.num 1))].foldl rowStep aempty)
      "name").isSome
      ↔ ∃ e ∈ [(PyVal.vstr "age", PyVal.vnum (F.num 17)),
               (PyVal.vstr "name", PyVal.vstr "bob"),
               (PyVal.vnum (F.num 3), PyVal.vnum (F.num 1))],
          e.1 = PyVal.vstr "name" ∧ (extractF64 e.2).isSome) ∧
    (∃ e, parseRows [.vdict [(.vstr "age", .vnum (F.num 17))], .vnum (F.num 5)]
      = Except.error e) :=
  ⟨(C3_row_ingestion [(PyVal.vstr "age", PyVal.vnum (F.num 17)),
      (PyVal.vstr "name", PyVal.vstr "bob"),
      (PyVal.vnum (F.num 3), PyVal.vnum (F.num 1))] (.vnum (F.num 5)) []).2.1 "name",
   (C3_row_ingestion [] (.vnum (F.num 5))
      [.vdict [(.vstr "age", .vnum (F.num 17))], .vnum (F.num 5)]).2.2.2
    ⟨.vnum (F.num 5), by simp, fun es hcontra => PyVal.noConfusion hcontra⟩⟩

end CosilicoEngine
